import Mathlib

/-!
Shallow embedding of `handhistory.py` (poker hand-history parser).

Text is modelled as `List Char`.  The three regular expressions of
`parse_hand_history` contain only literals and the quantified classes
`\d+` / `\w+`, and in each pattern every quantified class is followed by a
character that is not in the class (`:`/`.`/`/`/` `/`)`), so Python's
leftmost-search, greedy-match semantics coincide with maximal-munch
matching at the leftmost matching position; the matchers below implement
exactly that.  Python's fallible conversions `int()` / `float()` are
modelled in an `Except` monad so that the exception behaviour of the code
is visible; `float()` applied to a `\d+\.\d+` literal yields the exact
decimal value, represented as mantissa/scale (no claim compares float
values across representations).
-/

/-- Strip the literal pattern `p` from the head of `s`: `some r` when
`s = p ++ r` (the literal part of a regex match at the current position),
else `none`. -/
def dropLead? : List Char → List Char → Option (List Char)
  | [], s => some s
  | _ :: _, [] => none
  | p :: ps, c :: cs => if c = p then dropLead? ps cs else none

/-- Test whether `n` is an initial segment of `s`. -/
def isLeadOf : List Char → List Char → Bool
  | [], _ => true
  | _ :: _, [] => false
  | p :: ps, c :: cs => c = p && isLeadOf ps cs

/-- Python's substring containment `n in s` (contiguous occurrence). -/
def hasSub (n : List Char) : List Char → Bool
  | [] => isLeadOf n []
  | c :: cs => isLeadOf n (c :: cs) || hasSub n cs

/-- Python `text.split("\n\n\n")`: split at each (leftmost, non-overlapping)
occurrence of three consecutive newlines.  `acc` is the block read so far. -/
def pySplit3 (acc : List Char) : List Char → List (List Char)
  | '\n' :: '\n' :: '\n' :: rest => acc :: pySplit3 [] rest
  | c :: cs => pySplit3 (acc ++ [c]) cs
  | [] => [acc]

/-- Numeric value of a digit string (the value `int()` returns on it). -/
def natOfDigits (s : List Char) : Nat :=
  s.foldl (fun n c => 10 * n + (c.toNat - 48)) 0

/-- Model of Python `int(s)`: succeeds on a non-empty all-digit string
(the only shape the code ever passes), raises `ValueError` otherwise. -/
def pyIntOfLit (s : List Char) : Except String Int :=
  if s ≠ [] ∧ s.all Char.isDigit then .ok (natOfDigits s : Int)
  else .error "ValueError: invalid literal for int"

/-- Exact decimal value of a float literal: `mant / 10 ^ scale`. -/
structure PyFloat where
  mant : Nat
  scale : Nat
  deriving DecidableEq, Repr

/-- The rational a `PyFloat` denotes (for interpretation only). -/
def PyFloat.val (f : PyFloat) : ℚ := (f.mant : ℚ) / (10 : ℚ) ^ f.scale

/-- Value of a `\d+` or `\d+\.\d+` literal, `none` on any other shape. -/
def floatLitVal? (s : List Char) : Option PyFloat :=
  let ip := s.takeWhile Char.isDigit
  let r := s.dropWhile Char.isDigit
  if ip = [] then none
  else
    match r with
    | [] => some ⟨natOfDigits ip, 0⟩
    | '.' :: fp =>
      if fp ≠ [] ∧ fp.all Char.isDigit then
        some ⟨natOfDigits (ip ++ fp), fp.length⟩
      else none
    | _ => none

/-- Model of Python `float(s)` on the shapes the code can pass: succeeds on
`\d+` and `\d+\.\d+` literals, raises `ValueError` otherwise. -/
def pyFloatOfLit (s : List Char) : Except String PyFloat :=
  match floatLitVal? s with
  | some f => .ok f
  | none => .error "ValueError: could not convert string to float"

/-- Regex `\w` restricted to the ASCII inputs of this format. -/
def isWordChar (c : Char) : Bool := c.isAlphanum || c = '_'

/-- Require character `c` at the head of the input, return the tail. -/
def reqChar (c : Char) : List Char → Option (List Char)
  | x :: xs => if x = c then some xs else none
  | [] => none

/-- Greedy `\d+`: the maximal (non-empty) digit run and the rest. -/
def takeDigits1 (s : List Char) : Option (List Char × List Char) :=
  let d := s.takeWhile Char.isDigit
  if d = [] then none else some (d, s.dropWhile Char.isDigit)

/-- Greedy `\w+`: the maximal (non-empty) word-character run and the rest. -/
def takeWord1 (s : List Char) : Option (List Char × List Char) :=
  let w := s.takeWhile isWordChar
  if w = [] then none else some (w, s.dropWhile isWordChar)

/-- Match `PokerStars Hand #(\d+):` anchored at the start of `s`;
returns the capture group. -/
def matchHandIdAt (s : List Char) : Option (List Char) := do
  let r1 ← dropLead? "PokerStars Hand #".data s
  let (d, r2) ← takeDigits1 r1
  let _ ← reqChar ':' r2
  pure d

/-- Model of `re.search` for the hand-id pattern: try every position,
leftmost first. -/
def searchHandId : List Char → Option (List Char)
  | [] => none
  | c :: cs =>
    match matchHandIdAt (c :: cs) with
    | some g => some g
    | none => searchHandId cs

/-- Match `\(\$(\d+\.\d+)/\$(\d+\.\d+)` anchored at the start of `s`;
returns the two capture groups. -/
def matchCashAt (s : List Char) : Option (List Char × List Char) := do
  let r1 ← dropLead? "($".data s
  let (d1, r2) ← takeDigits1 r1
  let r3 ← reqChar '.' r2
  let (d2, r4) ← takeDigits1 r3
  let r5 ← dropLead? "/$".data r4
  let (d3, r6) ← takeDigits1 r5
  let r7 ← reqChar '.' r6
  let (d4, _) ← takeDigits1 r7
  pure (d1 ++ '.' :: d2, d3 ++ '.' :: d4)

/-- Model of `re.search` for the cash-stake pattern. -/
def searchCash : List Char → Option (List Char × List Char)
  | [] => none
  | c :: cs =>
    match matchCashAt (c :: cs) with
    | some g => some g
    | none => searchCash cs

/-- Match `Level \w+ \((\d+)/(\d+)\)` anchored at the start of `s`;
returns the two capture groups. -/
def matchLevelAt (s : List Char) : Option (List Char × List Char) := do
  let r1 ← dropLead? "Level ".data s
  let (_, r2) ← takeWord1 r1
  let r3 ← dropLead? " (".data r2
  let (d1, r4) ← takeDigits1 r3
  let r5 ← reqChar '/' r4
  let (d2, r6) ← takeDigits1 r5
  let _ ← reqChar ')' r6
  pure (d1, d2)

/-- Model of `re.search` for the tournament-level pattern. -/
def searchLevel : List Char → Option (List Char × List Char)
  | [] => none
  | c :: cs =>
    match matchLevelAt (c :: cs) with
    | some g => some g
    | none => searchLevel cs

deriving instance DecidableEq for Except

/-- A Python numeric value as stored in the parsed record: a float (from the
cash pattern) or an int (from the tournament pattern). -/
inductive PyNum where
  | float (v : PyFloat)
  | int (n : Int)
  deriving DecidableEq, Repr

/-- The dictionary `parse_hand_history` returns.  Field types mirror the
dynamic possibilities of the Python values (`HandId` is `int` or `None` in
`insert_hand_into_db`, blinds are `float`/`int`/`None`). -/
structure ParsedHand where
  HandId : Option Int
  SmallBlind : Option PyNum
  BigBlind : Option PyNum
  RawHandHistory : List Char
  GameType : String
  HandPlayed : String
  deriving DecidableEq, Repr

/-- First marker of an unplayed hand (apostrophe written as an escape). -/
def marker1 : List Char := "everyonedoes folded before Flop (didn\x27t bet)".data

/-- Second marker of an unplayed hand. -/
def marker2 : List Char := "everyonedoes (button) folded before Flop (didn\x27t bet)".data

/-- Blind extraction of `parse_hand_history` (lines 113-126): cash pattern
first, else tournament pattern, else both blinds `None`.  A `ValueError`
from a conversion propagates as an exception. -/
def blinds (t : List Char) : Except String (Option PyNum × Option PyNum) :=
  match searchCash t with
  | some (g1, g2) =>
    match pyFloatOfLit g1, pyFloatOfLit g2 with
    | .ok q1, .ok q2 => .ok (some (PyNum.float q1), some (PyNum.float q2))
    | .error e, _ => .error e
    | _, .error e => .error e
  | none =>
    match searchLevel t with
    | some (g1, g2) =>
      match pyIntOfLit g1, pyIntOfLit g2 with
      | .ok n1, .ok n2 => .ok (some (PyNum.int n1), some (PyNum.int n2))
      | .error e, _ => .error e
      | _, .error e => .error e
    | none => .ok (none, none)

/-- Model of `parse_hand_history` (lines 104-150).  `.ok none` is the "no record"
outcome (`return None`); `.error` models the `raise` in the `except` block.
The guard `if not hand_number` is Python truthiness: it rejects both `None`
(pattern absent) and the int `0`. -/
def parse_hand_history (t : List Char) : Except String (Option ParsedHand) :=
  match searchHandId t with
  | none => .ok none
  | some g =>
    match pyIntOfLit g with
    | .error e => .error e
    | .ok n =>
      if n = 0 then .ok none
      else
        match blinds t with
        | .error e => .error e
        | .ok (sb, bb) =>
          .ok (some
            { HandId := some n
              SmallBlind := sb
              BigBlind := bb
              RawHandHistory := t
              GameType := if hasSub "Tournament".data t then "Tournament" else "Cash"
              HandPlayed :=
                if hasSub marker1 t then "N"
                else if hasSub marker2 t then "N"
                else "Y" })

/-- The record a block contributes, if any (`.ok (some r)` outcomes). -/
def recordOf (b : List Char) : Option ParsedHand :=
  match parse_hand_history b with
  | .ok (some r) => some r
  | _ => none

/-- Model of `insert_hand_into_db` (lines 152-181), with the database modelled as the
list of stored rows and the store operation assumed to succeed: the guard
skips a missing record or a `None` `HandId`, otherwise the row is appended. -/
def insert_hand_into_db (db : List ParsedHand) (parsed : Option ParsedHand) :
    Except String (List ParsedHand) :=
  match parsed with
  | none => .ok db
  | some p =>
    match p.HandId with
    | none => .ok db
    | some _ => .ok (db ++ [p])

/-- Outcome of one `process_hand_history_file` call: rows persisted during
the call, number of blocks skipped with a warning (parse returned `None`),
number of block-level exceptions caught by the per-block handler, and
whether the missing-file condition was reported. -/
structure FileRun where
  db : List ParsedHand
  skipped : Nat
  faults : Nat
  missing : Bool
  deriving DecidableEq, Repr

/-- One iteration of the per-block loop (lines 193-201): parse, insert when
a record was produced, and catch any exception so that iteration continues. -/
def blockStep (st : List ParsedHand × Nat × Nat) (b : List Char) :
    List ParsedHand × Nat × Nat :=
  match parse_hand_history b with
  | .ok (some r) =>
    match insert_hand_into_db st.1 (some r) with
    | .ok db2 => (db2, st.2.1, st.2.2)
    | .error _ => (st.1, st.2.1, st.2.2 + 1)
  | .ok none => (st.1, st.2.1 + 1, st.2.2)
  | .error _ => (st.1, st.2.1, st.2.2 + 1)

/-- Model of `process_hand_history_file` (lines 183-207).  The file system is
modelled by the argument: `none` is a missing file (the caught
`FileNotFoundError`), `some content` the file's text.  The function is
total: every block-level exception is caught in the loop and the
missing-file case only logs. -/
def process_hand_history_file (file : Option (List Char)) : FileRun :=
  match file with
  | none => { db := [], skipped := 0, faults := 0, missing := true }
  | some content =>
    let blocks := pySplit3 [] content
    let res := blocks.foldl blockStep ([], 0, 0)
    { db := res.1, skipped := res.2.1, faults := res.2.2, missing := false }

/-- Predicate true exactly on blocks whose parse is the "no record" outcome. -/
def isSkipBlock (b : List Char) : Bool :=
  match parse_hand_history b with
  | .ok none => true
  | _ => false

/-- Predicate true exactly on blocks whose parse raises. -/
def isFaultBlock (b : List Char) : Bool :=
  match parse_hand_history b with
  | .error _ => true
  | _ => false

lemma takeDigits1_shape {s d r : List Char} (h : takeDigits1 s = some (d, r)) :
    d ≠ [] ∧ d.all Char.isDigit = true := by
  simp only [takeDigits1] at h
  split at h
  · cases h
  · next hne =>
    simp only [Option.some.injEq, Prod.mk.injEq] at h
    obtain ⟨rfl, rfl⟩ := h
    exact ⟨hne, List.all_takeWhile⟩

lemma matchHandIdAt_shape {s g : List Char} (h : matchHandIdAt s = some g) :
    g ≠ [] ∧ g.all Char.isDigit = true := by
  unfold matchHandIdAt at h
  simp only [bind, Option.bind_eq_some, pure, Option.some.injEq] at h
  obtain ⟨r1, h1, ⟨d, r2⟩, h2, r3, h3, rfl⟩ := h
  exact takeDigits1_shape h2

lemma searchHandId_shape {s g : List Char} (h : searchHandId s = some g) :
    g ≠ [] ∧ g.all Char.isDigit = true := by
  induction s with
  | nil => cases h
  | cons c cs ih =>
    unfold searchHandId at h
    cases hm : matchHandIdAt (c :: cs) with
    | some g0 =>
      rw [hm] at h
      cases h
      exact matchHandIdAt_shape hm
    | none =>
      rw [hm] at h
      exact ih h

lemma pyIntOfLit_ok {d : List Char} (h1 : d ≠ []) (h2 : d.all Char.isDigit = true) :
    pyIntOfLit d = .ok (natOfDigits d : Int) := by
  unfold pyIntOfLit
  rw [if_pos ⟨h1, h2⟩]

lemma takeWhile_append_stop {p : Char → Bool} {l1 : List Char} (c : Char) (l2 : List Char)
    (h1 : l1.all p = true) (hc : p c = false) :
    (l1 ++ c :: l2).takeWhile p = l1 ∧ (l1 ++ c :: l2).dropWhile p = c :: l2 := by
  induction l1 with
  | nil => simp [List.takeWhile_cons, List.dropWhile_cons, hc]
  | cons a l ih =>
    simp only [List.all_cons, Bool.and_eq_true] at h1
    obtain ⟨ha, hall⟩ := h1
    obtain ⟨iht, ihd⟩ := ih hall
    simp [List.takeWhile_cons, List.dropWhile_cons, ha, iht, ihd]

lemma pyFloatOfLit_shape {d1 d2 : List Char} (h1 : d1 ≠ []) (h1a : d1.all Char.isDigit = true)
    (h2 : d2 ≠ []) (h2a : d2.all Char.isDigit = true) :
    pyFloatOfLit (d1 ++ '.' :: d2) = .ok ⟨natOfDigits (d1 ++ d2), d2.length⟩ := by
  have hdot : Char.isDigit '.' = false := by decide
  obtain ⟨ht, hd⟩ := takeWhile_append_stop (p := Char.isDigit) '.' d2 h1a hdot
  have hval : floatLitVal? (d1 ++ '.' :: d2) = some ⟨natOfDigits (d1 ++ d2), d2.length⟩ := by
    simp only [floatLitVal?, ht, hd]
    rw [if_neg h1, if_pos ⟨h2, h2a⟩]
  unfold pyFloatOfLit
  rw [hval]

lemma matchCashAt_shape {s g1 g2 : List Char} (h : matchCashAt s = some (g1, g2)) :
    (∃ f1, pyFloatOfLit g1 = .ok f1) ∧ (∃ f2, pyFloatOfLit g2 = .ok f2) := by
  unfold matchCashAt at h
  simp only [bind, Option.bind_eq_some, pure, Option.some.injEq, Prod.mk.injEq] at h
  obtain ⟨r1, h1, ⟨d1, r2⟩, h2, r3, h3, ⟨d2, r4⟩, h4, r5, h5, ⟨d3, r6⟩, h6, r7, h7,
    ⟨d4, r8⟩, h8, hg1, hg2⟩ := h
  obtain ⟨hd1, hd1a⟩ := takeDigits1_shape h2
  obtain ⟨hd2, hd2a⟩ := takeDigits1_shape h4
  obtain ⟨hd3, hd3a⟩ := takeDigits1_shape h6
  obtain ⟨hd4, hd4a⟩ := takeDigits1_shape h8
  subst hg1
  subst hg2
  exact ⟨⟨_, pyFloatOfLit_shape hd1 hd1a hd2 hd2a⟩, ⟨_, pyFloatOfLit_shape hd3 hd3a hd4 hd4a⟩⟩

lemma searchCash_shape {s g1 g2 : List Char} (h : searchCash s = some (g1, g2)) :
    (∃ f1, pyFloatOfLit g1 = .ok f1) ∧ (∃ f2, pyFloatOfLit g2 = .ok f2) := by
  induction s with
  | nil => cases h
  | cons c cs ih =>
    unfold searchCash at h
    cases hm : matchCashAt (c :: cs) with
    | some g0 =>
      rw [hm] at h
      cases h
      exact matchCashAt_shape hm
    | none =>
      rw [hm] at h
      exact ih h

lemma matchLevelAt_shape {s g1 g2 : List Char} (h : matchLevelAt s = some (g1, g2)) :
    (g1 ≠ [] ∧ g1.all Char.isDigit = true) ∧ (g2 ≠ [] ∧ g2.all Char.isDigit = true) := by
  unfold matchLevelAt at h
  simp only [bind, Option.bind_eq_some, pure, Option.some.injEq, Prod.mk.injEq] at h
  obtain ⟨r1, h1, ⟨w, r2⟩, h2, r3, h3, ⟨d1, r4⟩, h4, r5, h5, ⟨d2, r6⟩, h6, r7, h7,
    hg1, hg2⟩ := h
  subst hg1
  subst hg2
  exact ⟨takeDigits1_shape h4, takeDigits1_shape h6⟩

lemma searchLevel_shape {s g1 g2 : List Char} (h : searchLevel s = some (g1, g2)) :
    (g1 ≠ [] ∧ g1.all Char.isDigit = true) ∧ (g2 ≠ [] ∧ g2.all Char.isDigit = true) := by
  induction s with
  | nil => cases h
  | cons c cs ih =>
    unfold searchLevel at h
    cases hm : matchLevelAt (c :: cs) with
    | some g0 =>
      rw [hm] at h
      cases h
      exact matchLevelAt_shape hm
    | none =>
      rw [hm] at h
      exact ih h

lemma blinds_cash {t g1 g2 : List Char} (hc : searchCash t = some (g1, g2)) :
    ∃ f1 f2, pyFloatOfLit g1 = .ok f1 ∧ pyFloatOfLit g2 = .ok f2 ∧
      blinds t = .ok (some (PyNum.float f1), some (PyNum.float f2)) := by
  obtain ⟨⟨f1, hf1⟩, ⟨f2, hf2⟩⟩ := searchCash_shape hc
  refine ⟨f1, f2, hf1, hf2, ?_⟩
  unfold blinds
  rw [hc]
  simp only [hf1, hf2]

lemma blinds_level {t g1 g2 : List Char} (hc : searchCash t = none)
    (hl : searchLevel t = some (g1, g2)) :
    blinds t = .ok (some (PyNum.int (natOfDigits g1)), some (PyNum.int (natOfDigits g2))) := by
  obtain ⟨⟨h1, h1a⟩, ⟨h2, h2a⟩⟩ := searchLevel_shape hl
  unfold blinds
  rw [hc, hl]
  simp only [pyIntOfLit_ok h1 h1a, pyIntOfLit_ok h2 h2a]

lemma blinds_unset {t : List Char} (hc : searchCash t = none) (hl : searchLevel t = none) :
    blinds t = .ok (none, none) := by
  unfold blinds
  rw [hc, hl]

lemma blinds_total (t : List Char) : ∃ p, blinds t = .ok p := by
  cases hc : searchCash t with
  | some g12 =>
    obtain ⟨g1, g2⟩ := g12
    obtain ⟨f1, f2, _, _, hb⟩ := blinds_cash hc
    exact ⟨_, hb⟩
  | none =>
    cases hl : searchLevel t with
    | some g12 =>
      obtain ⟨g1, g2⟩ := g12
      exact ⟨_, blinds_level hc hl⟩
    | none => exact ⟨_, blinds_unset hc hl⟩

lemma parse_of_no_handid {t : List Char} (h : searchHandId t = none) :
    parse_hand_history t = .ok none := by
  unfold parse_hand_history
  rw [h]

lemma parse_total (t : List Char) : ∃ res, parse_hand_history t = .ok res := by
  unfold parse_hand_history
  cases hid : searchHandId t with
  | none => exact ⟨none, rfl⟩
  | some g =>
    obtain ⟨hne, hall⟩ := searchHandId_shape hid
    simp only [pyIntOfLit_ok hne hall]
    by_cases hz : (natOfDigits g : Int) = 0
    · simp only [if_pos hz]
      exact ⟨none, rfl⟩
    · simp only [if_neg hz]
      obtain ⟨⟨sb, bb⟩, hb⟩ := blinds_total t
      simp only [hb]
      exact ⟨_, rfl⟩

lemma parse_ok_some_eq {t : List Char} {r : ParsedHand}
    (h : parse_hand_history t = .ok (some r)) :
    (∃ n : Int, n ≠ 0 ∧ r.HandId = some n) ∧
    r.RawHandHistory = t ∧
    r.GameType = (if hasSub "Tournament".data t then "Tournament" else "Cash") ∧
    r.HandPlayed = (if hasSub marker1 t then "N"
      else if hasSub marker2 t then "N" else "Y") ∧
    blinds t = .ok (r.SmallBlind, r.BigBlind) := by
  unfold parse_hand_history at h
  cases hid : searchHandId t with
  | none =>
    rw [hid] at h
    simp at h
  | some g =>
    rw [hid] at h
    obtain ⟨hne, hall⟩ := searchHandId_shape hid
    simp only [pyIntOfLit_ok hne hall] at h
    by_cases hz : (natOfDigits g : Int) = 0
    · simp only [if_pos hz] at h
      simp at h
    · simp only [if_neg hz] at h
      cases hb : blinds t with
      | error e =>
        simp only [hb] at h
        simp at h
      | ok p =>
        obtain ⟨sb, bb⟩ := p
        simp only [hb] at h
        simp only [Except.ok.injEq, Option.some.injEq] at h
        subst h
        exact ⟨⟨_, hz, rfl⟩, rfl, rfl, rfl, rfl⟩

lemma pySplit3_nil (acc : List Char) : pySplit3 acc [] = [acc] := rfl

lemma pySplit3_sep (acc rest : List Char) :
    pySplit3 acc ('\n' :: '\n' :: '\n' :: rest) = acc :: pySplit3 [] rest := rfl

lemma pySplit3_step {c : Char} {cs : List Char} (acc : List Char)
    (h : isLeadOf "\n\n\n".data (c :: cs) = false) :
    pySplit3 acc (c :: cs) = pySplit3 (acc ++ [c]) cs := by
  rcases cs with _ | ⟨c2, cs2⟩
  · by_cases h1 : c = '\n' <;> simp [pySplit3, h1]
  · rcases cs2 with _ | ⟨c3, cs3⟩
    · by_cases h1 : c = '\n' <;> by_cases h2 : c2 = '\n' <;> simp [pySplit3, h1, h2]
    · by_cases h1 : c = '\n'
      · by_cases h2 : c2 = '\n'
        · by_cases h3 : c3 = '\n'
          · subst h1; subst h2; subst h3
            simp [isLeadOf] at h
          · subst h1; subst h2
            simp [pySplit3, h3]
        · subst h1
          simp [pySplit3, h2]
      · simp [pySplit3, h1]

lemma pySplit3_no_sep : ∀ s : List Char, hasSub "\n\n\n".data s = false →
    ∀ acc, pySplit3 acc s = [acc ++ s] := by
  intro s
  induction s with
  | nil => intro _ acc; simp [pySplit3]
  | cons c cs ih =>
    intro h acc
    unfold hasSub at h
    rw [Bool.or_eq_false_iff] at h
    rw [pySplit3_step acc h.1, ih h.2]
    simp

/-- The record a block actually gets stored as (parse produced a record and
its `HandId` passed the guard of `insert_hand_into_db`). -/
def storedOf (b : List Char) : Option ParsedHand :=
  match parse_hand_history b with
  | .ok (some r) => if r.HandId.isSome then some r else none
  | _ => none

lemma insert_some_eq (db : List ParsedHand) (p : ParsedHand) :
    insert_hand_into_db db (some p) =
      .ok (if p.HandId.isSome then db ++ [p] else db) := by
  unfold insert_hand_into_db
  cases hp : p.HandId <;> simp [hp]

lemma foldl_blockStep_eq (blocks : List (List Char)) :
    ∀ db sk fl, blocks.foldl blockStep (db, sk, fl) =
      (db ++ blocks.filterMap storedOf,
       sk + blocks.countP isSkipBlock,
       fl + blocks.countP isFaultBlock) := by
  induction blocks with
  | nil => intro db sk fl; simp
  | cons b bs ih =>
    intro db sk fl
    rw [List.foldl_cons]
    cases hp : parse_hand_history b with
    | ok o =>
      cases o with
      | some r =>
        have hstep : blockStep (db, sk, fl) b =
            ((if r.HandId.isSome then db ++ [r] else db), sk, fl) := by
          unfold blockStep
          simp only [hp, insert_some_eq]
        rw [hstep, ih]
        have hst : storedOf b = if r.HandId.isSome then some r else none := by
          unfold storedOf; rw [hp]
        have hsk : isSkipBlock b = false := by
          unfold isSkipBlock; rw [hp]
        have hfl : isFaultBlock b = false := by
          unfold isFaultBlock; rw [hp]
        cases his : r.HandId.isSome <;>
          simp [hst, hsk, hfl, his, List.countP_cons, List.filterMap_cons]
      | none =>
        have hstep : blockStep (db, sk, fl) b = (db, sk + 1, fl) := by
          unfold blockStep
          simp only [hp]
        rw [hstep, ih]
        have hst : storedOf b = none := by
          unfold storedOf; rw [hp]
        have hsk : isSkipBlock b = true := by
          unfold isSkipBlock; rw [hp]
        have hfl : isFaultBlock b = false := by
          unfold isFaultBlock; rw [hp]
        simp [hst, hsk, hfl, List.countP_cons, List.filterMap_cons]
        try omega
    | error e =>
      have hstep : blockStep (db, sk, fl) b = (db, sk, fl + 1) := by
        unfold blockStep
        simp only [hp]
      rw [hstep, ih]
      have hst : storedOf b = none := by
        unfold storedOf; rw [hp]
      have hsk : isSkipBlock b = false := by
        unfold isSkipBlock; rw [hp]
      have hfl : isFaultBlock b = true := by
        unfold isFaultBlock; rw [hp]
      simp [hst, hsk, hfl, List.countP_cons, List.filterMap_cons]
      try omega

lemma process_some_eq (content : List Char) :
    process_hand_history_file (some content) =
      { db := (pySplit3 [] content).filterMap storedOf,
        skipped := (pySplit3 [] content).countP isSkipBlock,
        faults := (pySplit3 [] content).countP isFaultBlock,
        missing := false } := by
  show (let blocks := pySplit3 [] content;
    let res := List.foldl blockStep ([], 0, 0) blocks;
    ({ db := res.1, skipped := res.2.1, faults := res.2.2, missing := false } : FileRun)) = _
  simp only [foldl_blockStep_eq]
  simp

lemma parse_handid_some {t : List Char} {r : ParsedHand}
    (h : parse_hand_history t = .ok (some r)) : r.HandId.isSome = true := by
  obtain ⟨⟨n, _, hid⟩, _⟩ := parse_ok_some_eq h
  rw [hid]
  rfl

lemma storedOf_eq_recordOf (b : List Char) : storedOf b = recordOf b := by
  unfold storedOf recordOf
  cases hp : parse_hand_history b with
  | error e => rfl
  | ok o =>
    cases o with
    | none => rfl
    | some r => simp [parse_handid_some hp]

lemma isFaultBlock_false (b : List Char) : isFaultBlock b = false := by
  unfold isFaultBlock
  obtain ⟨res, h⟩ := parse_total b
  rw [h]

lemma isSkipBlock_false_of_record {b : List Char} (h : (recordOf b).isSome = true) :
    isSkipBlock b = false := by
  unfold recordOf at h
  unfold isSkipBlock
  cases hp : parse_hand_history b with
  | error e => rfl
  | ok o =>
    cases o with
    | none => rw [hp] at h; simp at h
    | some r => rfl

lemma recordOf_none_of_no_handid {b : List Char} (h : searchHandId b = none) :
    recordOf b = none := by
  unfold recordOf
  rw [parse_of_no_handid h]

lemma isSkipBlock_true_of_no_handid {b : List Char} (h : searchHandId b = none) :
    isSkipBlock b = true := by
  unfold isSkipBlock
  rw [parse_of_no_handid h]

lemma length_filterMap_of_isSome {α β : Type} (f : α → Option β) :
    ∀ l : List α, (∀ a ∈ l, (f a).isSome = true) → (l.filterMap f).length = l.length := by
  intro l
  induction l with
  | nil => intro _; rfl
  | cons a l ih =>
    intro h
    have ha := h a (by simp)
    obtain ⟨b, hb⟩ := Option.isSome_iff_exists.mp ha
    rw [List.filterMap_cons, hb]
    simp only [List.length_cons]
    rw [ih (fun x hx => h x (by simp [hx]))]

/-- C1: blind extraction follows strict precedence: if the cash-stake pattern
matches, both blinds are its captures converted by `float`; otherwise if the
tournament-level pattern matches, both blinds are its captures converted by
`int`; otherwise both blinds are null.  The cash pattern is checked first and
the sources are mutually exclusive. -/
theorem c1_blind_precedence {t : List Char} {r : ParsedHand}
    (h : parse_hand_history t = .ok (some r)) :
    (∀ g1 g2, searchCash t = some (g1, g2) →
      ∃ f1 f2, pyFloatOfLit g1 = .ok f1 ∧ pyFloatOfLit g2 = .ok f2 ∧
        r.SmallBlind = some (PyNum.float f1) ∧ r.BigBlind = some (PyNum.float f2)) ∧
    (searchCash t = none → ∀ g1 g2, searchLevel t = some (g1, g2) →
      r.SmallBlind = some (PyNum.int (natOfDigits g1)) ∧
      r.BigBlind = some (PyNum.int (natOfDigits g2))) ∧
    (searchCash t = none → searchLevel t = none →
      r.SmallBlind = none ∧ r.BigBlind = none) := by
  obtain ⟨-, -, -, -, hb⟩ := parse_ok_some_eq h
  refine ⟨?_, ?_, ?_⟩
  · intro g1 g2 hc
    obtain ⟨f1, f2, hf1, hf2, hbl⟩ := blinds_cash hc
    rw [hb] at hbl
    simp only [Except.ok.injEq, Prod.mk.injEq] at hbl
    exact ⟨f1, f2, hf1, hf2, hbl.1, hbl.2⟩
  · intro hc g1 g2 hl
    have hbl := blinds_level hc hl
    rw [hb] at hbl
    simp only [Except.ok.injEq, Prod.mk.injEq] at hbl
    exact hbl
  · intro hc hl
    have hbl := blinds_unset hc hl
    rw [hb] at hbl
    simp only [Except.ok.injEq, Prod.mk.injEq] at hbl
    exact hbl

/-- Input of the C1 witness: a block whose cash-stake pattern matches. -/
def wc1t : List Char := "PokerStars Hand #7: ($0.01/$0.02".data

/-- Record the C1 witness input parses to. -/
def wc1r : ParsedHand :=
  { HandId := some 7, SmallBlind := some (PyNum.float ⟨1, 2⟩),
    BigBlind := some (PyNum.float ⟨2, 2⟩), RawHandHistory := wc1t,
    GameType := "Cash", HandPlayed := "Y" }

/-- Witness for C1 at a concrete cash-stake block. -/
theorem c1_blind_precedence_witness :
    ∃ f1 f2, pyFloatOfLit "0.01".data = .ok f1 ∧ pyFloatOfLit "0.02".data = .ok f2 ∧
      wc1r.SmallBlind = some (PyNum.float f1) ∧ wc1r.BigBlind = some (PyNum.float f2) :=
  (c1_blind_precedence (t := wc1t) (r := wc1r) (by decide)).1
    "0.01".data "0.02".data (by decide)

/-- C2: whenever the hand-identifier pattern does not occur in the block, the
parse operation returns the "no record" outcome and raises no exception. -/
theorem c2_no_handid (t : List Char) (h : searchHandId t = none) :
    parse_hand_history t = Except.ok none :=
  parse_of_no_handid h

/-- Witness for C2 at a concrete block without the hand-id pattern. -/
theorem c2_no_handid_witness :
    parse_hand_history "no hand header here".data = Except.ok none :=
  c2_no_handid "no hand header here".data (by decide)

/-- C3: for every block yielding a record, the game type is "Tournament" iff
the literal substring "Tournament" occurs in the block, and "Cash" otherwise;
the theorem holds for every parsed block, independently of which blind
pattern matched. -/
theorem c3_game_type {t : List Char} {r : ParsedHand}
    (h : parse_hand_history t = .ok (some r)) :
    (r.GameType = "Tournament" ↔ hasSub "Tournament".data t = true) ∧
    (r.GameType = "Cash" ↔ hasSub "Tournament".data t = false) := by
  obtain ⟨-, -, hgt, -, -⟩ := parse_ok_some_eq h
  by_cases hT : hasSub "Tournament".data t = true
  · rw [hgt, if_pos hT]
    simp [hT]
  · rw [hgt, if_neg hT]
    simp only [Bool.not_eq_true] at hT
    simp [hT]

/-- Input of the C3 witness: the cash-stake pattern matches, yet the word
"Tournament" occurs, so the game type is "Tournament". -/
def wc3t : List Char := "PokerStars Hand #33: Tournament ($0.25/$0.50".data

/-- Record the C3 witness input parses to. -/
def wc3r : ParsedHand :=
  { HandId := some 33, SmallBlind := some (PyNum.float ⟨25, 2⟩),
    BigBlind := some (PyNum.float ⟨50, 2⟩), RawHandHistory := wc3t,
    GameType := "Tournament", HandPlayed := "Y" }

/-- Witness for C3 at a concrete block that matches the cash pattern while
containing "Tournament". -/
theorem c3_game_type_witness :
    (wc3r.GameType = "Tournament" ↔ hasSub "Tournament".data wc3t = true) ∧
    (wc3r.GameType = "Cash" ↔ hasSub "Tournament".data wc3t = false) :=
  c3_game_type (t := wc3t) (r := wc3r) (by decide)

/-- C4: for every block yielding a record, `hand_played` is "N" iff the block
contains at least one of the two exact marker substrings, and "Y" otherwise. -/
theorem c4_hand_played {t : List Char} {r : ParsedHand}
    (h : parse_hand_history t = .ok (some r)) :
    (r.HandPlayed = "N" ↔ (hasSub marker1 t || hasSub marker2 t) = true) ∧
    (r.HandPlayed = "Y" ↔ (hasSub marker1 t || hasSub marker2 t) = false) := by
  obtain ⟨-, -, -, hhp, -⟩ := parse_ok_some_eq h
  by_cases h1 : hasSub marker1 t = true
  · rw [hhp, if_pos h1]
    simp [h1]
  · simp only [Bool.not_eq_true] at h1
    by_cases h2 : hasSub marker2 t = true
    · rw [hhp, if_neg (by simp [h1]), if_pos h2]
      simp [h1, h2]
    · simp only [Bool.not_eq_true] at h2
      rw [hhp, if_neg (by simp [h1]), if_neg (by simp [h2])]
      simp [h1, h2]

/-- Input of the C4 witness: a block containing the first marker. -/
def wc4t : List Char :=
  "PokerStars Hand #4: everyonedoes folded before Flop (didn\x27t bet)".data

/-- Record the C4 witness input parses to. -/
def wc4r : ParsedHand :=
  { HandId := some 4, SmallBlind := none, BigBlind := none,
    RawHandHistory := wc4t, GameType := "Cash", HandPlayed := "N" }

/-- Witness for C4 at a concrete block containing the first marker. -/
theorem c4_hand_played_witness :
    (wc4r.HandPlayed = "N" ↔ (hasSub marker1 wc4t || hasSub marker2 wc4t) = true) ∧
    (wc4r.HandPlayed = "Y" ↔ (hasSub marker1 wc4t || hasSub marker2 wc4t) = false) :=
  c4_hand_played (t := wc4t) (r := wc4r) (by decide)

/-- C5: the splitter divides the text exactly at each occurrence of three
consecutive newlines: the given three-block example splits into exactly those
blocks, and an input with no triple-newline yields one block, the whole
input. -/
theorem c5_split_blocks :
    pySplit3 [] "A\n\n\nB\n\n\nC".data = ["A".data, "B".data, "C".data] ∧
    ∀ s : List Char, hasSub "\n\n\n".data s = false → pySplit3 [] s = [s] := by
  refine ⟨by decide, fun s h => ?_⟩
  simpa using pySplit3_no_sep s h []

/-- Witness for C5 at a concrete input without a triple newline. -/
theorem c5_split_blocks_witness :
    hasSub "\n\n\n".data "AB".data = false ∧ pySplit3 [] "AB".data = ["AB".data] :=
  ⟨by decide, c5_split_blocks.2 "AB".data (by decide)⟩

/-- C6: every record the parse operation returns has a non-null integer
`hand_id`, and its raw-text field is exactly the original block. -/
theorem c6_record_invariant {t : List Char} {r : ParsedHand}
    (h : parse_hand_history t = .ok (some r)) :
    (∃ n : Int, r.HandId = some n) ∧ r.RawHandHistory = t := by
  obtain ⟨⟨n, -, hid⟩, hraw, -, -, -⟩ := parse_ok_some_eq h
  exact ⟨⟨n, hid⟩, hraw⟩

/-- Input of the C6 witness. -/
def wc6t : List Char := "PokerStars Hand #42: z".data

/-- Record the C6 witness input parses to. -/
def wc6r : ParsedHand :=
  { HandId := some 42, SmallBlind := none, BigBlind := none,
    RawHandHistory := wc6t, GameType := "Cash", HandPlayed := "Y" }

/-- Witness for C6 at a concrete block. -/
theorem c6_record_invariant_witness :
    (∃ n : Int, wc6r.HandId = some n) ∧ wc6r.RawHandHistory = wc6t :=
  c6_record_invariant (t := wc6t) (r := wc6r) (by decide)

/-- C8: processing a missing file reports the condition (`missing = true`),
terminates normally with no exception escaping, and persists no record. -/
theorem c8_missing_file :
    process_hand_history_file none =
      { db := [], skipped := 0, faults := 0, missing := true } := rfl

/-- C9: on a block containing `PokerStars Hand #0:` the hand-id pattern is
present with capture "0", yet the parse operation returns no record, because
the rejection guard tests the truthiness of the numeric value. -/
theorem c9_zero_hand_id :
    searchHandId "PokerStars Hand #0:".data = some ['0'] ∧
    parse_hand_history "PokerStars Hand #0:".data = Except.ok none :=
  ⟨by decide, by decide⟩

/-- C10: the parse operation is total: on every input it returns (no
exception escapes), with either a record or nothing; its fault branch is
unreachable because the regex searches are total and the numeric conversions
only ever receive digit-shaped captures. -/
theorem c10_parse_total (t : List Char) :
    ∃ res : Option ParsedHand, parse_hand_history t = Except.ok res :=
  parse_total t

/-- C7: block-level failures are isolated.  If the split of a file's content
is `pre ++ [bad] ++ post` where `bad` lacks the hand-id pattern and every
other block yields a record, then the call returns normally (no exception),
persists exactly the records of the well-formed blocks in order (one per
well-formed block), and skips the malformed block. -/
theorem c7_block_isolation (content : List Char) (pre : List (List Char))
    (bad : List Char) (post : List (List Char))
    (hsplit : pySplit3 [] content = pre ++ bad :: post)
    (hbad : searchHandId bad = none)
    (hgood : ∀ b ∈ pre ++ post, (recordOf b).isSome = true) :
    process_hand_history_file (some content) =
      { db := pre.filterMap recordOf ++ post.filterMap recordOf,
        skipped := 1, faults := 0, missing := false } ∧
    (process_hand_history_file (some content)).db.length = pre.length + post.length := by
  have hfe : storedOf = recordOf := funext storedOf_eq_recordOf
  have hs := process_some_eq content
  rw [hfe, hsplit] at hs
  have hgpre : ∀ b ∈ pre, (recordOf b).isSome = true :=
    fun b hb => hgood b (by simp [hb])
  have hgpost : ∀ b ∈ post, (recordOf b).isSome = true :=
    fun b hb => hgood b (by simp [hb])
  have hdb : (pre ++ bad :: post).filterMap recordOf =
      pre.filterMap recordOf ++ post.filterMap recordOf := by
    rw [List.filterMap_append, List.filterMap_cons, recordOf_none_of_no_handid hbad]
  have hskip : (pre ++ bad :: post).countP isSkipBlock = 1 := by
    have h1 : pre.countP isSkipBlock = 0 :=
      List.countP_eq_zero.mpr
        (fun b hb => by simp [isSkipBlock_false_of_record (hgpre b hb)])
    have h2 : post.countP isSkipBlock = 0 :=
      List.countP_eq_zero.mpr
        (fun b hb => by simp [isSkipBlock_false_of_record (hgpost b hb)])
    rw [List.countP_append, List.countP_cons, h1, h2,
      isSkipBlock_true_of_no_handid hbad]
    simp
  have hfaults : (pre ++ bad :: post).countP isFaultBlock = 0 :=
    List.countP_eq_zero.mpr (fun b _ => by simp [isFaultBlock_false b])
  have hmain : process_hand_history_file (some content) =
      { db := pre.filterMap recordOf ++ post.filterMap recordOf,
        skipped := 1, faults := 0, missing := false } := by
    rw [hs, hdb, hskip, hfaults]
  refine ⟨hmain, ?_⟩
  rw [hmain]
  show (pre.filterMap recordOf ++ post.filterMap recordOf).length = _
  rw [List.length_append, length_filterMap_of_isSome recordOf pre hgpre,
    length_filterMap_of_isSome recordOf post hgpost]

/-- First (well-formed) block of the C7 witness file. -/
def wc7pre : List Char := "PokerStars Hand #1: x".data

/-- Malformed middle block of the C7 witness file (no hand-id pattern). -/
def wc7bad : List Char := "no id here".data

/-- Last (well-formed) block of the C7 witness file. -/
def wc7post : List Char := "PokerStars Hand #2: y".data

/-- Content of the C7 witness file: two well-formed hand blocks around one
malformed block. -/
def wc7content : List Char :=
  "PokerStars Hand #1: x\n\n\nno id here\n\n\nPokerStars Hand #2: y".data

/-- Witness for C7 at a concrete two-good-one-bad file. -/
theorem c7_block_isolation_witness :
    process_hand_history_file (some wc7content) =
      { db := [wc7pre].filterMap recordOf ++ [wc7post].filterMap recordOf,
        skipped := 1, faults := 0, missing := false } ∧
    (process_hand_history_file (some wc7content)).db.length =
      [wc7pre].length + [wc7post].length :=
  c7_block_isolation wc7content [wc7pre] wc7bad [wc7post]
    (by decide) (by decide) (by decide)
